import Mathlib

/-!
# FlashLog write-ahead log: verification of the record codec, segment store
# and writer pipeline

This file is a shallow embedding of the FlashLog WAL core (Go) into Lean 4:

* the record codec `Log.Encode` / `Decode` from `wal.go`, including the
  CRC32 (IEEE, reflected) checksum `crc32` that `hash/crc32` computes;
* the disk segment manager (`WriteActive`, `RotateSegment`,
  `validateSegmentEntries`) from `segmentmanager`;
* the writer pipeline's worker-loop body and submission protocol from
  `wal_writer.go`.

Byte streams are `List Nat` with each element a byte value; machine
integers are `Nat` with explicit `% 2^32` at the points where the Go code
performs `uint32` conversions.  Fallible operations return `Except`.
Places where the Go code would raise a runtime fault (slice index out of
range) are made explicit with the `DecodeResult.indexOutOfRange` outcome.
-/

set_option maxRecDepth 100000

namespace FlashLog

instance : {ε α : Type} → [DecidableEq ε] → [DecidableEq α] → DecidableEq (Except ε α) :=
  fun x y =>
    match x, y with
    | .ok a, .ok b => decidable_of_iff (a = b) (by simp)
    | .error a, .error b => decidable_of_iff (a = b) (by simp)
    | .ok _, .error _ => .isFalse (by intro h; cases h)
    | .error _, .ok _ => .isFalse (by intro h; cases h)

/-- `MaxEntrySize = 16 << 20` from `wal.go`. -/
def MaxEntrySize : Nat := 16777216

/-- `InvalidCRC = 0xFFFFFFFF` from `wal.go`. -/
def InvalidCRC : Nat := 0xFFFFFFFF

/-! ## CRC32 (IEEE), as computed by Go `hash/crc32` with the IEEE table.
The reflected algorithm: initial value `0xFFFFFFFF`, reversed polynomial
`0xEDB88320`, final xor `0xFFFFFFFF`, processing one bit at a time. -/

/-- One bit step of the reflected CRC32 update. -/
def crc32Step (c : Nat) : Nat :=
  if c % 2 = 1 then Nat.xor (c / 2) 0xEDB88320 else c / 2

/-- Absorb one byte into the CRC32 state (eight bit steps). -/
def crc32Byte (c b : Nat) : Nat :=
  crc32Step (crc32Step (crc32Step (crc32Step
    (crc32Step (crc32Step (crc32Step (crc32Step (Nat.xor c (b % 256)))))))))

/-- Absorb a byte list into the CRC32 state. -/
def crc32Aux (c : Nat) : List Nat → Nat
  | [] => c
  | b :: rest => crc32Aux (crc32Byte c b) rest

/-- `crc32.ChecksumIEEE` over a byte sequence. -/
def crc32 (data : List Nat) : Nat :=
  Nat.xor (crc32Aux 0xFFFFFFFF data) 0xFFFFFFFF

/-! ## Little-endian 32-bit fields (`encoding/binary`, LittleEndian). -/

/-- `binary.LittleEndian.PutUint32`: the four little-endian bytes of `n`. -/
def le32 (n : Nat) : List Nat :=
  [n % 256, n / 256 % 256, n / 65536 % 256, n / 16777216 % 256]

/-- `binary.LittleEndian.Uint32`: read the first four bytes of `s`
little-endian (callers guarantee at least four bytes are present). -/
def readLE32 (s : List Nat) : Nat :=
  s.getD 0 0 + 256 * s.getD 1 0 + 65536 * s.getD 2 0 + 16777216 * s.getD 3 0

/-! ## The log record (`Log` in `wal.go`).
Go's `Operation` is an `int`; `Decode` can materialise any byte value into
it, so the field is a plain `Nat` (`0 = Put`, `1 = Delete`). -/

/-- The `Log` record from `wal.go`: operation, key, value and the CRC
populated by encode/decode. -/
structure Log where
  op : Nat
  key : List Nat
  value : List Nat
  crc : Nat := 0
deriving DecidableEq, Repr

/-- `OperationPut = 0` from `wal.go`. -/
def OperationPut : Nat := 0

/-- `OperationDelete = 1` from `wal.go`. -/
def OperationDelete : Nat := 1

/-- The single failure mode of `Log.Encode` that does not come from the
byte sink: `entry too large`. -/
inductive EncodeError where
  | entryTooLarge
deriving DecidableEq, Repr

/-- The bytes covered by the CRC: `TOTAL_LEN | TYPE | KEY_LEN | KEY |
VAL_LEN | VALUE`, with every 32-bit field truncated exactly where the Go
code converts to `uint32`. -/
def logBody (l : Log) : List Nat :=
  let keyLen := l.key.length % 2 ^ 32
  let valLen := l.value.length % 2 ^ 32
  let payloadLen := (1 + 4 + keyLen + 4 + valLen) % 2 ^ 32
  let totalLen := (4 + payloadLen) % 2 ^ 32
  le32 totalLen ++ [l.op % 256] ++ le32 keyLen ++ l.key ++ le32 valLen ++ l.value

/-- The `TOTAL_LEN` field value computed by `Log.Encode`. -/
def Log.totalLen (l : Log) : Nat :=
  (4 + (1 + 4 + l.key.length % 2 ^ 32 + 4 + l.value.length % 2 ^ 32) % 2 ^ 32) % 2 ^ 32

/-- The full on-disk frame of a record: CRC prefix followed by the body. -/
def Log.frame (l : Log) : List Nat :=
  le32 (crc32 (logBody l)) ++ logBody l

/-- `Log.Encode` from `wal.go`.  The Go code streams the frame to a
seekable sink and patches the CRC placeholder in place; its net effect on
the sink is appending `Log.frame`.  Returns `entry too large` when
`TOTAL_LEN` exceeds `MaxEntrySize`, before writing anything. -/
def Log.Encode (l : Log) : Except EncodeError (List Nat) :=
  if l.totalLen > MaxEntrySize then .error .entryTooLarge
  else .ok l.frame

/-- The outcomes of `Decode`: a record, clean EOF, corruption, or a Go
runtime fault (slice index out of range) — the last models the places
where `Decode` slices `payload[pos:]` without checking that four bytes
remain. -/
inductive DecodeResult where
  | ok (l : Log)
  | eof
  | corrupt
  | indexOutOfRange
deriving DecidableEq, Repr

/-- The payload-parsing tail of `Decode` (`wal.go` lines 151–180).
`payload` always has length `totalLen ≥ 5`, so reading `TYPE` at index 4
is safe; the two length-field reads are not guarded in the Go code and
fault when fewer than four bytes remain. -/
def decodePayload (storedCRC : Nat) (payload : List Nat) : DecodeResult :=
  let op := payload.getD 4 0
  if payload.length < 9 then .indexOutOfRange
  else
    let keyLen := readLE32 (payload.drop 5)
    if keyLen > payload.length - 9 then .corrupt
    else
      let key := (payload.drop 9).take keyLen
      if payload.length < 9 + keyLen + 4 then .indexOutOfRange
      else
        let valLen := readLE32 (payload.drop (9 + keyLen))
        if valLen > payload.length - (13 + keyLen) then .corrupt
        else
          let value := (payload.drop (13 + keyLen)).take valLen
          .ok { op := op, key := key, value := value, crc := storedCRC }

/-- `Decode` from `wal.go` on a byte stream.  Short reads (fewer bytes
than requested, including zero) are clean EOF via `cleanEOF`; the
sentinel CRC is EOF; an implausible `TOTAL_LEN` or a CRC mismatch is
corruption. -/
def Decode (s : List Nat) : DecodeResult :=
  if s.length < 4 then .eof
  else
    let storedCRC := readLE32 s
    if storedCRC = InvalidCRC then .eof
    else
      let s1 := s.drop 4
      if s1.length < 4 then .eof
      else
        let totalLen := readLE32 s1
        let s2 := s1.drop 4
        if totalLen > MaxEntrySize ∨ totalLen < 5 then .corrupt
        else if s2.length < totalLen - 4 then .eof
        else
          let payload := le32 totalLen ++ s2.take (totalLen - 4)
          if ¬ crc32 payload = storedCRC then .corrupt
          else decodePayload storedCRC payload

/-- The record `Put("a","b")` from the spec's first end-to-end scenario. -/
def putAB : Log := { op := OperationPut, key := [97], value := [98] }

/-- The concrete frame `Log.Encode` produces for `putAB`. -/
def frameAB : List Nat :=
  [127, 94, 237, 49, 15, 0, 0, 0, 0, 1, 0, 0, 0, 97, 1, 0, 0, 0, 98]

example : Log.Encode putAB = .ok frameAB := by decide
example : Decode frameAB = .ok { op := 0, key := [97], value := [98], crc := 0x31ED5E7F } := by
  decide

/-! ## Basic facts about the field codecs -/

theorem le32_length (n : Nat) : (le32 n).length = 4 := rfl

theorem readLE32_le32 (n : Nat) (rest : List Nat) (h : n < 2 ^ 32) :
    readLE32 (le32 n ++ rest) = n := by
  simp only [le32, readLE32, List.cons_append, List.nil_append, List.getD]
  simp only [List.get?, Option.getD_some]
  omega

theorem drop_four_le32 (n : Nat) (rest : List Nat) : (le32 n ++ rest).drop 4 = rest := rfl

theorem crc32Step_lt (c : Nat) (h : c < 2 ^ 32) : crc32Step c < 2 ^ 32 := by
  unfold crc32Step
  split
  · exact Nat.xor_lt_two_pow (by omega) (by norm_num)
  · omega

theorem crc32Byte_lt (c b : Nat) (h : c < 2 ^ 32) : crc32Byte c b < 2 ^ 32 := by
  unfold crc32Byte
  apply crc32Step_lt; apply crc32Step_lt; apply crc32Step_lt; apply crc32Step_lt
  apply crc32Step_lt; apply crc32Step_lt; apply crc32Step_lt; apply crc32Step_lt
  exact Nat.xor_lt_two_pow h (by omega)

theorem crc32Aux_lt (data : List Nat) : ∀ c, c < 2 ^ 32 → crc32Aux c data < 2 ^ 32 := by
  induction data with
  | nil => intro c h; exact h
  | cons b rest ih => intro c h; exact ih _ (crc32Byte_lt c b h)

theorem crc32_lt (data : List Nat) : crc32 data < 2 ^ 32 := by
  unfold crc32
  exact Nat.xor_lt_two_pow (crc32Aux_lt data _ (by norm_num)) (by norm_num)

theorem logBody_length (l : Log) :
    (logBody l).length = 13 + l.key.length + l.value.length := by
  simp [logBody, le32]
  omega

theorem frame_length (l : Log) :
    l.frame.length = 17 + l.key.length + l.value.length := by
  simp [Log.frame, le32_length, logBody_length]
  omega

/-! ## Parsing a well-formed payload -/

theorem decodePayload_ok (storedCRC op : Nat) (key value : List Nat)
    (hK : key.length < 2 ^ 32) (hV : value.length < 2 ^ 32) :
    decodePayload storedCRC
      (le32 (13 + key.length + value.length) ++ op ::
        (le32 key.length ++ (key ++ (le32 value.length ++ value)))) =
      .ok { op := op, key := key, value := value, crc := storedCRC } := by
  set K := key.length with hKdef
  set V := value.length with hVdef
  set P : List Nat :=
    le32 (13 + K + V) ++ op :: (le32 K ++ (key ++ (le32 V ++ value))) with hP
  have hlen : P.length = 13 + K + V := by
    simp [hP, le32]; omega
  have hop4 : P.getD 4 0 = op := rfl
  have hdrop5 : P.drop 5 = le32 K ++ (key ++ (le32 V ++ value)) := rfl
  have hkl : readLE32 (P.drop 5) = K := by
    rw [hdrop5]; exact readLE32_le32 K _ hK
  have hdrop9 : P.drop 9 = key ++ (le32 V ++ value) := rfl
  have htakeK : (P.drop 9).take K = key := by
    rw [hdrop9]; exact List.take_left' rfl
  have hdrop9K : P.drop (9 + K) = le32 V ++ value := by
    rw [← List.drop_drop, hdrop9]
    exact List.drop_left' rfl
  have hvl : readLE32 (P.drop (9 + K)) = V := by
    rw [hdrop9K]; exact readLE32_le32 V _ hV
  have hdrop13K : P.drop (13 + K) = value := by
    rw [show 13 + K = 9 + K + 4 from by omega, ← List.drop_drop, hdrop9K]
    exact drop_four_le32 V value
  have htakeV : (P.drop (13 + K)).take V = value := by
    rw [hdrop13K, hVdef]; exact List.take_length value
  simp only [decodePayload, hlen, hop4, hkl, htakeK, hvl, htakeV]
  rw [if_neg (by omega), if_neg (by omega), if_neg (by omega), if_neg (by omega)]

/-! ## The normal form of an encoded body -/

theorem logBody_eq (l : Log) (hk : l.key.length < 2 ^ 32) (hv : l.value.length < 2 ^ 32)
    (hkv : 13 + l.key.length + l.value.length < 2 ^ 32) :
    logBody l = le32 (13 + l.key.length + l.value.length) ++ (l.op % 256) ::
      (le32 l.key.length ++ (l.key ++ (le32 l.value.length ++ l.value))) := by
  simp only [logBody]
  rw [Nat.mod_eq_of_lt hk, Nat.mod_eq_of_lt hv,
    Nat.mod_eq_of_lt (show 1 + 4 + l.key.length + 4 + l.value.length < 2 ^ 32 by omega),
    show 4 + (1 + 4 + l.key.length + 4 + l.value.length) = 13 + l.key.length + l.value.length
      from by omega,
    Nat.mod_eq_of_lt hkv]
  simp only [List.append_assoc, List.singleton_append, List.cons_append, List.nil_append]

theorem totalLen_eq (l : Log) (hkv : 13 + l.key.length + l.value.length < 2 ^ 32) :
    l.totalLen = 13 + l.key.length + l.value.length := by
  simp only [Log.totalLen]
  rw [Nat.mod_eq_of_lt (show l.key.length < 2 ^ 32 by omega),
    Nat.mod_eq_of_lt (show l.value.length < 2 ^ 32 by omega),
    Nat.mod_eq_of_lt (show 1 + 4 + l.key.length + 4 + l.value.length < 2 ^ 32 by omega),
    show 4 + (1 + 4 + l.key.length + 4 + l.value.length) = 13 + l.key.length + l.value.length
      from by omega,
    Nat.mod_eq_of_lt hkv]

/-- C1 (amended), the core round-trip statement: for a record within the
spec's bounds whose frame CRC is not the sentinel, `Decode ∘ Encode`
returns the same operation, key and value. -/
theorem decode_encode_roundtrip_core (l : Log) (hop : l.op < 256)
    (hk : l.key.length ≤ 2097152) (hv : l.value.length ≤ 2097152)
    (hsent : crc32 (logBody l) ≠ InvalidCRC) :
    Log.Encode l = .ok l.frame ∧
      Decode l.frame =
        .ok { op := l.op, key := l.key, value := l.value, crc := crc32 (logBody l) } := by
  have hkv : 13 + l.key.length + l.value.length < 2 ^ 32 := by omega
  have hbody := logBody_eq l (by omega) (by omega) hkv
  have hT := totalLen_eq l hkv
  constructor
  · simp only [Log.Encode]
    rw [if_neg (by rw [hT]; simp only [MaxEntrySize]; omega)]
  · have hc : readLE32 l.frame = crc32 (logBody l) := by
      rw [Log.frame]; exact readLE32_le32 _ _ (crc32_lt _)
    have hdropf : l.frame.drop 4 = logBody l := by
      rw [Log.frame]; exact drop_four_le32 _ _
    have hlenf : l.frame.length = 17 + l.key.length + l.value.length := frame_length l
    have hbl : (logBody l).length = 13 + l.key.length + l.value.length := logBody_length l
    have hTL : readLE32 (logBody l) = 13 + l.key.length + l.value.length := by
      rw [hbody]; exact readLE32_le32 _ _ hkv
    have hdropB : (logBody l).drop 4 =
        (l.op % 256) :: (le32 l.key.length ++ (l.key ++ (le32 l.value.length ++ l.value))) := by
      rw [hbody]; exact drop_four_le32 _ _
    have hs2len : ((logBody l).drop 4).length = 9 + l.key.length + l.value.length := by
      rw [hdropB]; simp [le32]; omega
    have htake : ((logBody l).drop 4).take (13 + l.key.length + l.value.length - 4) =
        (logBody l).drop 4 := by
      rw [show 13 + l.key.length + l.value.length - 4 = 9 + l.key.length + l.value.length
        from by omega, ← hs2len]
      exact List.take_length _
    have hpayload : le32 (13 + l.key.length + l.value.length) ++ (logBody l).drop 4 =
        logBody l := by
      rw [hdropB, hbody]
    simp only [Decode, hc, hdropf, hlenf, hbl, hTL, hs2len, htake, hpayload]
    rw [if_neg (by omega), if_neg hsent, if_neg (by omega),
      if_neg (by simp only [MaxEntrySize]; omega), if_neg (by omega),
      if_neg (by simp only [not_not])]
    rw [hbody]
    rw [decodePayload_ok _ _ _ _ (by omega) (by omega)]
    rw [Nat.mod_eq_of_lt hop]

/-! ## Claim C1: encode/decode round-trip -/

/-- A record whose encoded body has CRC32 exactly `0xFFFFFFFF`: the value
bytes were chosen to force the checksum onto the sentinel. -/
def sentinelLog : Log := { op := OperationPut, key := [97], value := [16, 163, 211, 149] }

/-- C1 counterexample: `sentinelLog` satisfies every bound of the claim
(key and value far below 2 MiB, frame far below 16 MiB), yet decoding its
encoding returns EOF — the stored CRC collides with the reserved sentinel
`0xFFFFFFFF` — instead of `Ok sentinelLog`. -/
theorem roundtrip_fails_on_sentinel_crc :
    sentinelLog.key.length ≤ 2097152 ∧ sentinelLog.value.length ≤ 2097152 ∧
      sentinelLog.frame.length ≤ 16777216 ∧
      Log.Encode sentinelLog = .ok sentinelLog.frame ∧
      Decode sentinelLog.frame = .eof := by decide

/-- C1 (amended): for every record whose key and value are at most 2 MiB
and whose frame CRC is not the sentinel `0xFFFFFFFF`, encoding succeeds
and decoding the frame returns the same operation, key and value. -/
theorem decode_encode_roundtrip (l : Log) (hop : l.op < 256)
    (hk : l.key.length ≤ 2097152) (hv : l.value.length ≤ 2097152)
    (hsent : crc32 (logBody l) ≠ InvalidCRC) :
    Log.Encode l = .ok l.frame ∧
      Decode l.frame =
        .ok { op := l.op, key := l.key, value := l.value, crc := crc32 (logBody l) } :=
  decode_encode_roundtrip_core l hop hk hv hsent

/-- C1 witness: the round-trip theorem applied to `Put("a","b")`. -/
theorem decode_encode_roundtrip_witness :
    putAB.op < 256 ∧ putAB.key.length ≤ 2097152 ∧ putAB.value.length ≤ 2097152 ∧
      crc32 (logBody putAB) ≠ InvalidCRC ∧
      (Log.Encode putAB = .ok putAB.frame ∧
        Decode putAB.frame =
          .ok { op := putAB.op, key := putAB.key, value := putAB.value,
                crc := crc32 (logBody putAB) }) :=
  ⟨by decide, by decide, by decide, by decide,
    decode_encode_roundtrip putAB (by decide) (by decide) (by decide) (by decide)⟩

/-! ## Claim C3: single-bit corruption -/

/-- Flip bit `i` (little-endian within each byte) of a byte stream. -/
def flipBit (s : List Nat) (i : Nat) : List Nat :=
  s.set (i / 8) (Nat.xor (s.getD (i / 8) 0) (2 ^ (i % 8)))

/-- C3 counterexample: `frameAB` is a well-formed frame (it decodes to
`Put("a","b")`), yet flipping bit 36 — which raises `TOTAL_LEN` from 15
to 31 so that the remaining stream is too short — makes `Decode` return
EOF, not Corrupt. -/
theorem bitflip_can_yield_eof :
    Decode frameAB = .ok { op := 0, key := [97], value := [98], crc := 0x31ED5E7F } ∧
      Decode (flipBit frameAB 36) = .eof := by decide

/-- C3 (amended): flipping any single bit of the stored frame of
`Put("a","b")` makes `Decode` return Corrupt or EOF — never a
successfully decoded record (checked exhaustively over all 152 bit
positions of the 19-byte frame). -/
theorem bitflip_never_yields_record :
    ∀ i : Nat, i < 152 →
      Decode (flipBit frameAB i) = .corrupt ∨ Decode (flipBit frameAB i) = .eof := by
  decide

/-- C3 witness: the amended theorem applied at bit position 0. -/
theorem bitflip_never_yields_record_witness :
    (0 : Nat) < 152 ∧
      (Decode (flipBit frameAB 0) = .corrupt ∨ Decode (flipBit frameAB 0) = .eof) :=
  ⟨by decide, bitflip_never_yields_record 0 (by decide)⟩

/-! ## Claim C4: truncation tolerance -/

/-- C4: truncating the frame of any encodable record to any length
`i ∈ [1, L−1]` makes `Decode` return EOF (clean end-of-log), never
Corrupt and never a record. -/
theorem decode_truncated_frame_eof (l : Log)
    (hsize : 13 + l.key.length + l.value.length ≤ MaxEntrySize)
    (i : Nat) (h1 : 1 ≤ i) (h2 : i < l.frame.length) :
    Log.Encode l = .ok l.frame ∧ Decode (l.frame.take i) = .eof := by
  simp only [MaxEntrySize] at hsize
  have hlenf := frame_length l
  have hbody := logBody_eq l (by omega) (by omega) (by omega)
  refine ⟨?_, ?_⟩
  · simp only [Log.Encode]
    rw [if_neg (by rw [totalLen_eq l (by omega)]; simp only [MaxEntrySize]; omega)]
  · by_cases h4 : i < 4
    · simp only [Decode]
      rw [if_pos (by rw [List.length_take, hlenf]; omega)]
    · have htake4 : l.frame.take i =
          le32 (crc32 (logBody l)) ++ (logBody l).take (i - 4) := by
        rw [Log.frame, List.take_append_eq_append_take,
          List.take_of_length_le (by rw [le32_length]; omega), le32_length]
      have hread : readLE32 (l.frame.take i) = crc32 (logBody l) := by
        rw [htake4]; exact readLE32_le32 _ _ (crc32_lt _)
      by_cases hsent : crc32 (logBody l) = InvalidCRC
      · simp only [Decode]
        rw [if_neg (by rw [List.length_take, hlenf]; omega), hread, if_pos hsent]
      · have hdrop4 : (l.frame.take i).drop 4 = (logBody l).take (i - 4) := by
          rw [htake4]; exact drop_four_le32 _ _
        have hs1len : ((logBody l).take (i - 4)).length = i - 4 := by
          rw [List.length_take, logBody_length]; omega
        by_cases h8 : i < 8
        · simp only [Decode]
          rw [if_neg (by rw [List.length_take, hlenf]; omega), hread, if_neg hsent, hdrop4,
            if_pos (by rw [hs1len]; omega)]
        · have htakeB : (logBody l).take (i - 4) =
              le32 (13 + l.key.length + l.value.length) ++
                ((l.op % 256) ::
                  (le32 l.key.length ++ (l.key ++ (le32 l.value.length ++ l.value)))).take
                  (i - 8) := by
            rw [hbody, List.take_append_eq_append_take,
              List.take_of_length_le (by rw [le32_length]; omega), le32_length,
              show i - 4 - 4 = i - 8 from by omega]
          have hreadT : readLE32 ((logBody l).take (i - 4)) =
              13 + l.key.length + l.value.length := by
            rw [htakeB]; exact readLE32_le32 _ _ (by omega)
          have hdrop44 : ((logBody l).take (i - 4)).drop 4 =
              ((l.op % 256) ::
                (le32 l.key.length ++ (l.key ++ (le32 l.value.length ++ l.value)))).take
                (i - 8) := by
            rw [htakeB]; exact drop_four_le32 _ _
          have hrestlen :
              ((l.op % 256) ::
                (le32 l.key.length ++ (l.key ++ (le32 l.value.length ++ l.value)))).length =
                9 + l.key.length + l.value.length := by
            simp [le32]; omega
          have hs2len :
              (((l.op % 256) ::
                (le32 l.key.length ++ (l.key ++ (le32 l.value.length ++ l.value)))).take
                (i - 8)).length = i - 8 := by
            rw [List.length_take, hrestlen]; omega
          simp only [Decode]
          rw [if_neg (by rw [List.length_take, hlenf]; omega), hread, if_neg hsent, hdrop4,
            if_neg (by rw [hs1len]; omega), hreadT,
            if_neg (by simp only [MaxEntrySize]; omega), hdrop44,
            if_pos (by rw [hs2len]; omega)]

/-- C4 witness: the truncation theorem applied to `Put("a","b")` at
truncation length 1. -/
theorem decode_truncated_frame_eof_witness :
    13 + putAB.key.length + putAB.value.length ≤ MaxEntrySize ∧ (1 : Nat) ≤ 1 ∧
      1 < putAB.frame.length ∧
      (Log.Encode putAB = .ok putAB.frame ∧ Decode (putAB.frame.take 1) = .eof) :=
  ⟨by decide, by decide, by decide,
    decode_truncated_frame_eof putAB (by decide) 1 (by decide) (by decide)⟩

/-! ## Claim C5: payload validation and totality -/

/-- A frame with a correct CRC, `TOTAL_LEN = 9`, `TYPE = 0` and
`KEY_LEN = 0`: its payload ends immediately after `KEY_LEN`, so the
decoder's unguarded read of `VAL_LEN` goes past the end of the payload. -/
def shortPayloadFrame : List Nat := [245, 162, 170, 74, 9, 0, 0, 0, 0, 0, 0, 0, 0]

/-- A frame with a correct CRC whose `TYPE` byte is 2 (outside `{0,1}`). -/
def typeTwoFrame : List Nat := [190, 231, 129, 105, 15, 0, 0, 0, 2, 1, 0, 0, 0, 97, 1, 0, 0, 0, 98]

/-- C5: evaluation of `Decode` at the failing inputs.  On
`shortPayloadFrame` the Go code slices `payload[pos:]` with no bytes left
and faults (index out of range) instead of returning Corrupt; on
`typeTwoFrame` it accepts `TYPE = 2` and returns a record instead of
Corrupt. -/
theorem decode_not_total_and_type_unchecked :
    Decode shortPayloadFrame = .indexOutOfRange ∧
      Decode typeTwoFrame = .ok { op := 2, key := [97], value := [98], crc := 0x6981E7BE } := by
  decide

/-! ## Claim C6: implausible length -/

/-- C6: a stream whose first four bytes are any non-sentinel CRC and
whose next four bytes decode to `TOTAL_LEN < 5` or `> 16 MiB` is
Corrupt. -/
theorem decode_insane_length_corrupt (c t : Nat) (rest : List Nat)
    (hc : c < 2 ^ 32) (hcs : c ≠ InvalidCRC) (ht : t < 2 ^ 32)
    (hins : t < 5 ∨ t > MaxEntrySize) :
    Decode (le32 c ++ (le32 t ++ rest)) = .corrupt := by
  have h1 : readLE32 (le32 c ++ (le32 t ++ rest)) = c := readLE32_le32 c _ hc
  have h2 : (le32 c ++ (le32 t ++ rest)).drop 4 = le32 t ++ rest := drop_four_le32 _ _
  have h3 : readLE32 (le32 t ++ rest) = t := readLE32_le32 t rest ht
  have hlen : (le32 c ++ (le32 t ++ rest)).length = 8 + rest.length := by
    simp [le32]; omega
  have hlen2 : (le32 t ++ rest).length = 4 + rest.length := by
    simp [le32]; omega
  simp only [Decode, h1, h2, h3, hlen, hlen2]
  rw [if_neg (by omega), if_neg hcs, if_neg (by omega), if_pos hins.symm]

/-- C6 witness: the repository's own test input — CRC `0x11111111`,
`TOTAL_LEN = 0xFFFFFFFF`. -/
theorem decode_insane_length_corrupt_witness :
    (286331153 : Nat) < 2 ^ 32 ∧ (286331153 : Nat) ≠ InvalidCRC ∧
      (4294967295 : Nat) < 2 ^ 32 ∧
      ((4294967295 : Nat) < 5 ∨ (4294967295 : Nat) > MaxEntrySize) ∧
      Decode (le32 286331153 ++ (le32 4294967295 ++ [])) = .corrupt :=
  ⟨by decide, by decide, by decide, by decide,
    decode_insane_length_corrupt 286331153 4294967295 [] (by decide) (by decide) (by decide)
      (by decide)⟩

/-! ## Claim C7: the exact bytes of `Encode(Put("a","b"))` -/

/-- C7 counterexample: the `TOTAL_LEN` field of the encoded frame of
`Put("a","b")` holds `0x0F = 15`, not `0x13 = 19` as the claim's expected
byte string says. -/
theorem encode_putAB_total_len_field :
    Log.Encode putAB = .ok frameAB ∧ frameAB.getD 4 0 = 15 ∧ ¬ frameAB.getD 4 0 = 19 := by
  decide

/-- C7 (amended): `Encode(Put("a","b"))` produces exactly
`CRC(4) = 7F 5E ED 31 | 0x0F 00 00 00 | 0x00 | 0x01 00 00 00 | 'a' |
0x01 00 00 00 | 'b'`, and `TOTAL_LEN = 15 = 4 + 1 + 4 + |key| + 4 +
|value|` (the full on-disk frame is 19 bytes). -/
theorem encode_putAB_bytes :
    Log.Encode putAB =
      .ok [127, 94, 237, 49, 15, 0, 0, 0, 0, 1, 0, 0, 0, 97, 1, 0, 0, 0, 98] ∧
      (15 : Nat) = 4 + 1 + 4 + putAB.key.length + 4 + putAB.value.length := by
  decide

/-! ## The disk segment manager (`segmentmanager`, core version with
`WriteActive`).

A segment file is its byte content, kept twice: the bytes written so far
and the bytes known durable (the prefix forced to stable storage by the
last `Sync`).  `stat.Size()` is the length of the written content. -/

/-- One segment file: written content and durable (synced) content. -/
structure SegFile where
  written : List Nat
  durable : List Nat
deriving DecidableEq, Repr

/-- The `diskSegmentManager` state: active segment id, active file,
closed segment files in creation order, and the rotation cap. -/
structure DiskState where
  activeID : Nat
  active : SegFile
  closedFiles : List SegFile
  maxSegmentSize : Nat
deriving DecidableEq, Repr

/-- Errors surfaced by `WriteActive`. -/
inductive SMError where
  | nTooLarge
deriving DecidableEq, Repr

/-- `RotateSegment`: close the previous active file, create the next
(empty) segment with id one higher and make it active. -/
def RotateSegment (st : DiskState) : DiskState :=
  { st with
    activeID := st.activeID + 1
    active := { written := [], durable := [] }
    closedFiles := st.closedFiles ++ [st.active] }

/-- `WriteActive(n, fn)` from the disk segment manager: reject `n` above
the cap; rotate first when the current size plus `n` would exceed the
cap; run the write closure against the active file; `Sync` the active
file before returning.

This pure function erases the mutex and so gives the rotation branch the
state it is written to produce; in the source that branch never returns:
`WriteActive` holds `s.mu` and calls `RotateSegment`, which locks `s.mu`
again, and Go mutexes are not reentrant.  `WriteActiveLocked` below
makes that explicit.  Consequences drawn from a *returned* result of
this function (as the writer pipeline's success signal does) remain
sound: erasing the deadlock removes executions that never return, and
adds no result the source could not produce on the non-rotating path. -/
def WriteActive (st : DiskState) (n : Nat) (fn : List Nat → List Nat) :
    Except SMError DiskState :=
  if n > st.maxSegmentSize then .error .nTooLarge
  else
    let st1 := if st.active.written.length + n > st.maxSegmentSize then RotateSegment st else st
    let content := fn st1.active.written
    .ok { st1 with active := { written := content, durable := content } }

/-- The state after mounting an empty directory: one fresh segment with
id 1 (`initializeEmptySegmentDir` rotates once from id 0). -/
def initialState (max : Nat) : DiskState :=
  { activeID := 1, active := { written := [], durable := [] }, closedFiles := [], maxSegmentSize := max }

/-! ## Claim C8: size-triggered rotation

`WriteActive` acquires `s.mu` on entry (and defers the unlock to its
return); on the rotation branch it calls `s.RotateSegment()`, whose
first statement locks `s.mu` again.  Go's `sync.Mutex` is not
reentrant, so that lock never succeeds: a write whose size pushes the
active file past the cap blocks forever inside `WriteActive`.  The
model below keeps the mutex explicit: each step either returns a
result, rejects the size, or reaches the re-entrant lock and
deadlocks. -/

/-- The outcome of one `WriteActive` call with the mutex made explicit:
a returned state, a returned error, or no return at all (the rotation
branch's self-deadlock on `s.mu`). -/
inductive LockedResult where
  | ok (st : DiskState)
  | err (e : SMError)
  | deadlock
deriving DecidableEq, Repr

/-- `WriteActive(n, fn)` with the mutex explicit: the size check and the
non-rotating write-then-`Sync` path return exactly as in `WriteActive`;
the rotation branch calls `RotateSegment`, which blocks forever on the
already-held `s.mu`. -/
def WriteActiveLocked (st : DiskState) (n : Nat) (fn : List Nat → List Nat) :
    LockedResult :=
  if n > st.maxSegmentSize then .err .nTooLarge
  else if st.active.written.length + n > st.maxSegmentSize then .deadlock
  else
    let content := fn st.active.written
    .ok { st with active := { written := content, durable := content } }

/-- A fixed-size write under the explicit mutex: the closure appends
exactly `n = s` bytes, as in the repository's rotation tests. -/
def writeFixedLocked (s : Nat) (st : DiskState) : LockedResult :=
  WriteActiveLocked st s (fun w => w ++ List.replicate s 0)

/-- `k` consecutive fixed-size writes of `s` bytes each, stopping at the
first error or deadlock. -/
def writeRepeatLocked (s : Nat) : Nat → DiskState → LockedResult
  | 0, st => .ok st
  | k + 1, st =>
    match writeFixedLocked s st with
    | .ok st1 => writeRepeatLocked s k st1
    | .err e => .err e
    | .deadlock => .deadlock

/-- C8: evaluation of the segment store at the claim's own scenario
(`maxSegmentSize = 10`, fixed writes of `s = 5` bytes).  The first two
writes fill the active segment to exactly 10 bytes and return; the
third write satisfies the rotation condition `10 + 5 > 10`, so
`WriteActive` — holding `s.mu` — calls `RotateSegment`, which locks
`s.mu` again and never returns.  No rotating write completes, so the
store can never produce the claimed file count (nor the 25 files its
own rotation test expects for 50 such writes). -/
theorem rotation_write_deadlocks :
    writeRepeatLocked 5 2 (initialState 10) =
      .ok (DiskState.mk 1 (SegFile.mk (List.replicate 10 0) (List.replicate 10 0)) [] 10) ∧
      writeRepeatLocked 5 3 (initialState 10) = .deadlock := by decide
/-! ## Claim C9: dense segment-id validation

`validateSegmentEntries` (core version, `part_001` of the sources) walks
the sorted entries and requires `entries[i].id == i+1`.  It is modelled
on the sorted list of parsed ids. -/

/-- The loop of `validateSegmentEntries`, carrying the running index. -/
def validateFrom : Nat → List Nat → Bool
  | _, [] => true
  | i, idv :: rest => if idv = i + 1 then validateFrom (i + 1) rest else false

/-- `validateSegmentEntries` on the sorted list of parsed segment ids. -/
def validateSegmentEntries (ids : List Nat) : Bool := validateFrom 0 ids

theorem validateFrom_iff (l : List Nat) :
    ∀ i, validateFrom i l = true ↔ l = List.range' (i + 1) l.length := by
  induction l with
  | nil => intro i; simp [validateFrom]
  | cons a l ih =>
    intro i
    simp only [validateFrom, List.length_cons, List.range'_succ]
    by_cases h : a = i + 1
    · subst h
      simp only [if_pos rfl, List.cons.injEq, true_and]
      exact ih (i + 1)
    · simp only [if_neg h]
      constructor
      · intro hfalse; cases hfalse
      · intro heq
        exact absurd (List.cons.injEq .. ▸ congrArg id heq).1 h

/-- C9 counterexample: the directory holding `segment-0001.log` and
`segment-1.log` parses to the id multiset `{1,1}`, whose id *set* is the
dense range `{1}`, yet validation rejects it — while the same id set
from a single file is accepted. -/
theorem duplicate_ids_rejected_despite_dense_set :
    validateSegmentEntries [1, 1] = false ∧
      ([1, 1] : List Nat).toFinset = ([1] : List Nat).toFinset ∧
      validateSegmentEntries [1] = true := by decide

/-- C9 (amended): the sorted id list is accepted iff it is exactly the
list `[1, …, M]` (dense, 1-based, duplicate-free); on acceptance of a
non-empty list, the highest id equals the number of segments `M` and is
one of the ids (the file with that id becomes the active segment). -/
theorem validateSegmentEntries_dense (ids : List Nat) :
    (validateSegmentEntries ids = true ↔ ids = List.range' 1 ids.length) ∧
      (validateSegmentEntries ids = true → ids ≠ [] →
        ids.length ∈ ids ∧ ∀ x ∈ ids, x ≤ ids.length) := by
  have hiff : validateSegmentEntries ids = true ↔ ids = List.range' 1 ids.length :=
    validateFrom_iff ids 0
  refine ⟨hiff, fun hv hne => ?_⟩
  have h := hiff.mp hv
  constructor
  · have hmem : ids.length ∈ List.range' 1 ids.length := by
      rw [List.mem_range'_1]
      have : ids.length ≠ 0 := fun h0 => hne (List.eq_nil_of_length_eq_zero h0)
      omega
    rw [← h] at hmem
    exact hmem
  · intro x hx
    rw [h] at hx
    rw [List.mem_range'_1] at hx
    omega

/-- C9 witness: the amended theorem at the accepted directory `[1, 2]`. -/
theorem validateSegmentEntries_dense_witness :
    validateSegmentEntries [1, 2] = true ∧ ([1, 2] : List Nat) ≠ [] ∧
      (([1, 2] : List Nat).length ∈ ([1, 2] : List Nat) ∧
        ∀ x ∈ ([1, 2] : List Nat), x ≤ ([1, 2] : List Nat).length) :=
  ⟨by decide, by decide,
    (validateSegmentEntries_dense [1, 2]).2 (by decide) (by decide)⟩

/-! ## Claims C2 and C10: the writer pipeline

`WALWriter.Write` hands the record to a single worker over the
submission queue and blocks on the request's completion channel; the
worker's loop processes one request at a time against the segment store.
The loop body below is that per-request processing: the value it pairs
with the new state is exactly the error (or success) signalled on
`req.done`, which is what `Write` returns for an enqueued submission. -/

/-- Modelled from the spec: `Log.Size` is called in `wal_writer.go` but
its definition is absent from the sources; §9 of the spec fixes the size
argument as the encoded frame length `TOTAL_LEN + 4`. -/
def Log.Size (l : Log) : Nat := 4 + l.totalLen

/-- Errors a submission's completion channel can carry. -/
inductive WALError where
  | smError (e : SMError)
  | encodeError (e : EncodeError)
deriving DecidableEq, Repr

/-- One iteration of `WALWriter.loop` from `wal_writer.go`: call
`WriteActive(l.Size, fn)` where `fn` encodes the record into the active
file; an encode failure is signalled in place of `WriteActive`'s result
(`hasErr`); otherwise `WriteActive`'s own result is signalled.  The
first component is the value sent on the request's `done` channel. -/
def walLoopBody (st : DiskState) (l : Log) : Except WALError Unit × DiskState :=
  let enc := Log.Encode l
  let fn : List Nat → List Nat := fun w =>
    match enc with
    | .ok frame => w ++ frame
    | .error _ => w
  match WriteActive st (Log.Size l) fn with
  | .error e => (.error (.smError e), st)
  | .ok st1 =>
    match enc with
    | .error e => (.error (.encodeError e), st1)
    | .ok _ => (.ok (), st1)

theorem WriteActive_ok (st : DiskState) (n : Nat) (fn : List Nat → List Nat)
    (st' : DiskState) (h : WriteActive st n fn = .ok st') :
    ∃ st1 : DiskState, st'.active.written = fn st1.active.written ∧
      st'.active.durable = fn st1.active.written := by
  unfold WriteActive at h
  by_cases hn : n > st.maxSegmentSize
  · rw [if_pos hn] at h; cases h
  · rw [if_neg hn] at h
    refine ⟨if st.active.written.length + n > st.maxSegmentSize then RotateSegment st
      else st, ?_, ?_⟩ <;> (cases h; rfl)

/-- C2: if the worker signals success for a submission — which is the
only way `WALWriter.Write` returns `nil` for an enqueued record — then
the record's encoded frame has been appended to the active segment file
and the file's durable (fsync'd) content equals its written content. -/
theorem write_success_implies_durable (st : DiskState) (l : Log) (st' : DiskState)
    (h : walLoopBody st l = (.ok (), st')) :
    ∃ frame pre, Log.Encode l = .ok frame ∧
      st'.active.written = pre ++ frame ∧
      st'.active.durable = st'.active.written := by
  cases henc : Log.Encode l with
  | error e =>
    simp only [walLoopBody, henc] at h
    cases hwa : WriteActive st (Log.Size l) (fun w => w) with
    | error e' => rw [hwa] at h; simp at h
    | ok st1 => rw [hwa] at h; simp at h
  | ok frame =>
    simp only [walLoopBody, henc] at h
    cases hwa : WriteActive st (Log.Size l) (fun w => w ++ frame) with
    | error e' => rw [hwa] at h; simp at h
    | ok st1 =>
      rw [hwa] at h
      simp only [Prod.mk.injEq] at h
      obtain ⟨-, rfl⟩ := h
      obtain ⟨st2, hw, hd⟩ := WriteActive_ok st _ _ st1 hwa
      exact ⟨frame, st2.active.written, rfl, hw, by rw [hd, ← hw]⟩

/-- The state of the segment store after processing `Put("a","b")` from
a fresh store with the default 16 MiB cap. -/
def walStateAB : DiskState := (walLoopBody (initialState MaxEntrySize) putAB).2

/-- C2 witness: the durability theorem for `Put("a","b")` against a
fresh store. -/
theorem write_success_implies_durable_witness :
    walLoopBody (initialState MaxEntrySize) putAB = (.ok (), walStateAB) ∧
      (∃ frame pre, Log.Encode putAB = .ok frame ∧
        walStateAB.active.written = pre ++ frame ∧
        walStateAB.active.durable = walStateAB.active.written) :=
  ⟨by decide,
    write_success_implies_durable (initialState MaxEntrySize) putAB walStateAB (by decide)⟩

/-- The mutually exclusive return paths of `WALWriter.Write`: the
closed-flag check under the mutex rejects before a request is built; the
`select` either commits to the queue send (enqueue) or to the `done`
signal (reject); a single `select` never does both. -/
inductive WriteOutcome where
  | rejectedClosed
  | enqueued
deriving DecidableEq, Repr

/-- `WALWriter.Write` as a step relation over (closed flag, done-channel
fired, submission queue, record) — nondeterministic where Go's `select`
is. -/
inductive WALWriterWrite :
    Bool → Bool → List Log → Log → WriteOutcome × List Log → Prop where
  | closedCheck (doneFired : Bool) (q : List Log) (l : Log) :
      WALWriterWrite true doneFired q l (.rejectedClosed, q)
  | sendCase (doneFired : Bool) (q : List Log) (l : Log) :
      WALWriterWrite false doneFired q l (.enqueued, q ++ [l])
  | doneCase (q : List Log) (l : Log) :
      WALWriterWrite false true q l (.rejectedClosed, q)

/-- The worker draining the queue (as after `Close`): the final segment
store state is a fold of the loop body over the queued records. -/
def walDrain (st : DiskState) : List Log → DiskState
  | [] => st
  | l :: rest => walDrain (walLoopBody st l).2 rest

/-- C10: whenever `Write` returns the `Closed` rejection, the submission
queue is unchanged — the record was never enqueued — so the log contents
produced by draining the queue are exactly those produced without the
rejected record. -/
theorem write_closed_leaves_log_unchanged (closed doneFired : Bool)
    (q : List Log) (l : Log) (q' : List Log)
    (h : WALWriterWrite closed doneFired q l (.rejectedClosed, q')) :
    q' = q ∧ ∀ st, walDrain st q' = walDrain st q := by
  cases h with
  | closedCheck => exact ⟨rfl, fun st => rfl⟩
  | doneCase => exact ⟨rfl, fun st => rfl⟩

/-- C10 witness: a `Write` against a closed writer with one queued
record. -/
theorem write_closed_leaves_log_unchanged_witness :
    ([putAB] : List Log) = [putAB] ∧
      ∀ st, walDrain st [putAB] = walDrain st [putAB] :=
  write_closed_leaves_log_unchanged true false [putAB] putAB [putAB]
    (WALWriterWrite.closedCheck false [putAB] putAB)

end FlashLog
